import Mathlib

/-!
Verification of the gphotos streaming module against its specification.

The definitions below are a shallow embedding of the Go source
(src/unnamed/part_000): the rate gate `do`, the directory cache `fileOf`,
the recursive path resolver `pathOf`, the record enrichment `fileAsPhoto`,
the page-walker goroutine loops `getPhotos` / `getChanges`, and the session
entry point `Photos`.  External effects (remote calls, the RFC3339 parser
of the time library) are passed in as explicit oracles; machine floating
point for the rate limit is modelled with exact rationals; unbounded loops
take either an explicit trace of outcomes or a fuel argument, with `none`
meaning the loop has not yet terminated on the supplied trace.
-/

namespace GPhotos

/-- Does `sub` occur at the start of `l`?  Helper for the model of
Go `strings.Contains`. -/
def prefixAt (sub l : List Char) : Bool :=
  match sub, l with
  | [], _ => true
  | _ :: _, [] => false
  | a :: as, b :: bs => a == b && prefixAt as bs

/-- Helper for `goContains`: does `sub` occur anywhere in the list? -/
def containsAt (sub : List Char) : List Char → Bool
  | [] => sub.isEmpty
  | c :: cs => prefixAt sub (c :: cs) || containsAt sub cs

/-- Model of Go `strings.Contains s sub`. -/
def goContains (s sub : String) : Bool :=
  containsAt sub.toList s.toList

/-- The overload marker tested by `do`:
`strings.Contains(err.Error(), "Rate Limit Exceeded")`. -/
def overloadMarker : String := "Rate Limit Exceeded"

/-- One iteration's worth of outside world for the retry loop of `do`
(src/unnamed/part_000 lines 257-272): either `Rate.Wait(ctx)` fails
(cancellation), or the wrapped call `f` runs and returns a value
(payload modelled as `Nat`) or an error string. -/
inductive Attempt where
  | waitFail (e : String)
  | call (r : Except String Nat)
deriving Repr

/-- Model of the gated call `do` (src/unnamed/part_000 lines 257-272).
`limit` is the limiter's current rate (`Rate.Limit()`), kept as an exact
rational where the Go source uses a float; the decay
`Rate.SetLimit(Rate.Limit() * 0.9)` becomes multiplication by 9/10.
The result pairs the final rate with the returned value or error;
`none` means the supplied attempt trace ended with the loop still
retrying. -/
def doGate (limit : ℚ) : List Attempt → Option (ℚ × Except String Nat)
  | [] => none
  | .waitFail e :: _ => some (limit, .error e)
  | .call (.ok v) :: _ => some (limit, .ok v)
  | .call (.error e) :: rest =>
    if goContains e overloadMarker then doGate (limit * (9 / 10)) rest
    else some (limit, .error e)

/-- Attempt traces in which `Rate.Wait` never fails. -/
def allCalls : List Attempt → Bool
  | [] => true
  | .waitFail _ :: _ => false
  | .call _ :: rest => allCalls rest

theorem doGate_overload_run (e : String) (he : goContains e overloadMarker = true)
    (v : Nat) (rest : List Attempt) :
    ∀ (k : Nat) (limit : ℚ),
      doGate limit (List.replicate k (.call (.error e)) ++ .call (.ok v) :: rest)
        = some (limit * (9 / 10) ^ k, .ok v) := by
  intro k
  induction k with
  | zero =>
    intro limit
    simp [doGate]
  | succ k ih =>
    intro limit
    rw [List.replicate_succ, List.cons_append]
    simp only [doGate, he, if_true]
    rw [ih (limit * (9 / 10))]
    ring_nf

theorem doGate_no_overload_result (limit : ℚ) :
    ∀ (l : List Attempt), allCalls l = true →
      ∀ (q : ℚ) (e : String), doGate limit l = some (q, .error e) →
        goContains e overloadMarker = false := by
  intro l
  induction l generalizing limit with
  | nil => intro _ q e h; exact absurd h (by simp [doGate])
  | cons a rest ih =>
    intro hall q e h
    match a with
    | .waitFail e0 => exact absurd hall (by simp [allCalls])
    | .call (.ok v) =>
      simp [doGate] at h
    | .call (.error e0) =>
      by_cases hov : goContains e0 overloadMarker = true
      · have hrec : doGate (limit * (9 / 10)) rest = some (q, .error e) := by
          simpa [doGate, hov] using h
        exact ih (limit * (9 / 10)) (by simpa [allCalls] using hall) q e hrec
      · have hov2 : goContains e0 overloadMarker = false := by
          simpa using hov
        have : limit = q ∧ e0 = e := by
          simp [doGate, hov2] at h
          exact ⟨h.1, h.2⟩
        exact this.2 ▸ hov2

/-- C1: a gated call that fails with the overload marker has the permitted
rate multiplied by 0.9 and is retried (after re-waiting for a token), with
no bound on attempts, so that after k consecutive overload failures and a
success the rate is the prior rate times 0.9^k and the success is returned;
a failure without the marker is returned to the caller unchanged, ending
the loop; and an error carrying the overload marker is never the value
returned to the caller (on traces where the token wait itself does not
fail). -/
theorem do_gate_c1 (limit : ℚ) (k : Nat) (e : String) (v : Nat)
    (rest : List Attempt) (he : goContains e overloadMarker = true) :
    doGate limit (List.replicate k (.call (.error e)) ++ .call (.ok v) :: rest)
      = some (limit * (9 / 10) ^ k, .ok v)
    ∧ (∀ e2, goContains e2 overloadMarker = false →
        doGate limit (.call (.error e2) :: rest) = some (limit, .error e2))
    ∧ (∀ (l : List Attempt), allCalls l = true →
        ∀ (q : ℚ) (e2 : String), doGate limit l = some (q, .error e2) →
          goContains e2 overloadMarker = false) := by
  refine ⟨doGate_overload_run e he v rest k limit, ?_, ?_⟩
  · intro e2 he2
    simp [doGate, he2]
  · exact doGate_no_overload_result limit

/-- Witness for C1 at a concrete trace: three overload failures, then a
success; the rate 10 decays to 10 * (9/10)^3. -/
theorem do_gate_c1_witness :
    doGate 10 (List.replicate 3 (.call (.error "Rate Limit Exceeded"))
        ++ .call (.ok 7) :: [])
      = some (10 * (9 / 10) ^ 3, .ok 7)
    ∧ (∀ e2, goContains e2 overloadMarker = false →
        doGate 10 (.call (.error e2) :: []) = some (10, .error e2))
    ∧ (∀ (l : List Attempt), allCalls l = true →
        ∀ (q : ℚ) (e2 : String), doGate 10 l = some (q, .error e2) →
          goContains e2 overloadMarker = false) :=
  do_gate_c1 10 3 "Rate Limit Exceeded" 7 [] (by decide)

/-- The directory record fetched by `fileOf`:
`srv.Get(p).Fields("id, name, parents")`. -/
structure DFile where
  id : String
  name : String
  parents : List String
deriving Repr, DecidableEq

/-- Outcome of `fileOf` for one identifier, as seen by its callers
(`pathOf` and the parents loop of `fileAsPhoto`): the cached or freshly
fetched record, or the lookup error.  The cache and single-flight
internals of `fileOf` are modelled separately below. -/
abbrev ResolveEnv := String → Except String DFile

/-- Model of `pathOf` (src/unnamed/part_000 lines 244-255): the name of the
entry, preceded by the recursively computed path of its first parent; a
parent that fails to resolve stops the recursion, returning the names
accumulated so far together with the error.  `fuel` bounds the ancestor
recursion (the Go source recurses unboundedly); `none` means the fuel ran
out before the recursion finished. -/
def pathOf (env : ResolveEnv) : Nat → DFile → Option (List String × Option String)
  | 0, _ => none
  | fuel + 1, f =>
    match f.parents with
    | [] => some ([f.name], none)
    | k :: _ =>
      match env k with
      | .error e => some ([f.name], some e)
      | .ok p =>
        match pathOf env fuel p with
        | none => none
        | some (prev, err) => some (prev ++ [f.name], err)

/-- One position of the parents loop of `fileAsPhoto` (lines 192-208):
resolve the identifier, compute its path, join with "/" and add the
leading "/"; a resolution or path error leaves the slot at the empty
string and reports the error. -/
def resolveOne (env : ResolveEnv) (fuel : Nat) (k : String) :
    Option (String × Option String) :=
  match env k with
  | .error e => some ("", some e)
  | .ok pf =>
    match pathOf env fuel pf with
    | none => none
    | some (_, some e) => some ("", some e)
    | some (parts, none) => some ("/" ++ String.intercalate "/" parts, none)

/-- The parents loop of `fileAsPhoto` (src/unnamed/part_000 lines 190-209):
one output slot per parent identifier, processed in order; the first
error encountered is remembered and returned, later positions are still
processed. -/
def parentsLoop (env : ResolveEnv) (fuel : Nat) :
    List String → Option (List String × Option String)
  | [] => some ([], none)
  | k :: ks =>
    match resolveOne env fuel k, parentsLoop env fuel ks with
    | some (s, e1), some (ss, es) => some (s :: ss, e1 <|> es)
    | _, _ => none

/-- The raw remote record fields read by `fileAsPhoto` (drive.File).
Timestamps are the raw RFC3339 strings; the embedded image metadata block
is opaque to this module and modelled as an optional numeric payload. -/
structure GFile where
  id : String := ""
  name : String := ""
  mimeType : String := ""
  description : String := ""
  starred : Bool := false
  parents : List String := []
  properties : List (String × String) := []
  webContentLink : String := ""
  createdTime : String := ""
  modifiedTime : String := ""
  originalFilename : String := ""
  imageMediaMetadata : Option Nat := none
deriving Repr, DecidableEq

/-- The domain record built by `fileAsPhoto`.  Time values are opaque to
this module and modelled as `Nat` with 0 the zero time value; the embedded
`drive.FileImageMediaMetadata` is the opaque payload with zero value 0.
The field defaults are the Go zero values, so `{}` is the zero `Photo`. -/
structure Photo where
  id : String := ""
  name : String := ""
  mimeType : String := ""
  description : String := ""
  starred : Bool := false
  parents : List String := []
  properties : List (String × String) := []
  webContentLink : String := ""
  createdTime : Nat := 0
  modifiedTime : Nat := 0
  originalFilename : String := ""
  imageMediaMetadata : Nat := 0
deriving Repr, DecidableEq

/-- The Photo assembled by `fileAsPhoto` before the parents loop fills in
the `parents` field.  The Go source builds it by a record literal followed
by three conditional assignments (image metadata when the pointer is
non-nil, each timestamp when the raw string is nonempty); each field here
is the net value of that sequence. -/
def photoFields (parse : String → Option Nat) (f : GFile) (ps : List String) :
    Photo :=
  { id := f.id, name := f.name, mimeType := f.mimeType,
    description := f.description, starred := f.starred,
    parents := ps, properties := f.properties,
    webContentLink := f.webContentLink,
    createdTime :=
      if f.createdTime ≠ "" then (parse f.createdTime).getD 0 else 0,
    modifiedTime :=
      if f.modifiedTime ≠ "" then (parse f.modifiedTime).getD 0 else 0,
    originalFilename := f.originalFilename,
    imageMediaMetadata := f.imageMediaMetadata.getD 0 }

/-- Model of `fileAsPhoto` (src/unnamed/part_000 lines 167-209).
`parse` is the oracle for `time.Parse(time.RFC3339, s)` with `none`
standing for a parse error; the Go code discards the parse error and on
failure the field keeps the zero time, which `time.Parse` returns together
with its error.  A nil record maps to the zero `Photo` and no error. -/
def fileAsPhoto (env : ResolveEnv) (parse : String → Option Nat) (fuel : Nat) :
    Option GFile → Option (Photo × Option String)
  | none => some ({}, none)
  | some f =>
    match parentsLoop env fuel f.parents with
    | none => none
    | some (ps, firstErr) => some (photoFields parse f ps, firstErr)

/-- Spec-side reading of one position of `parentPaths`: the path string
that position receives ("" when resolution or path computation fails). -/
def posPath (env : ResolveEnv) (fuel : Nat) (k : String) : String :=
  match resolveOne env fuel k with
  | some (s, _) => s
  | none => ""

/-- Spec-side reading of one position of `parentPaths`: the error that
position contributes (none on success). -/
def posErr (env : ResolveEnv) (fuel : Nat) (k : String) : Option String :=
  match resolveOne env fuel k with
  | some (_, e) => e
  | none => none

/-- The first non-`none` entry of a list of optional errors. -/
def firstSome : List (Option String) → Option String
  | [] => none
  | o :: os => o <|> firstSome os

theorem parentsLoop_eq_map (env : ResolveEnv) (fuel : Nat) :
    ∀ (ks : List String) (r : List String × Option String),
      parentsLoop env fuel ks = some r →
      r.1 = ks.map (posPath env fuel) ∧ r.2 = firstSome (ks.map (posErr env fuel)) := by
  intro ks
  induction ks with
  | nil =>
    intro r h
    simp [parentsLoop] at h
    simp [← h, firstSome]
  | cons k ks ih =>
    intro r h
    rcases h1 : resolveOne env fuel k with _ | ⟨s, e1⟩ <;>
      rcases h2 : parentsLoop env fuel ks with _ | ⟨ss, es⟩ <;>
        simp [parentsLoop, h1, h2] at h
    subst h
    rcases ih (ss, es) h2 with ⟨ihp, ihe⟩
    simp only at ihp ihe
    constructor
    · simp [posPath, h1, ihp]
    · simp [firstSome, posErr, h1, ihe]

theorem pathOf_last (env : ResolveEnv) :
    ∀ (fuel : Nat) (f : DFile) (res : List String × Option String),
      pathOf env fuel f = some res →
      res.1 ≠ [] ∧ res.1.getLast? = some f.name := by
  intro fuel
  induction fuel with
  | zero => intro f res h; exact absurd h (by simp [pathOf])
  | succ fuel ih =>
    intro f res h
    rcases hp : f.parents with _ | ⟨k, ks⟩
    · simp [pathOf, hp] at h
      subst h
      simp
    · rcases he : env k with e | p
      · simp [pathOf, hp, he] at h
        subst h
        simp
      · rcases hr : pathOf env fuel p with _ | ⟨prev, er⟩ <;>
          simp [pathOf, hp, he, hr] at h
        subst h
        refine ⟨by simp, ?_⟩
        rw [List.getLast?_append_of_ne_nil prev (by simp)]
        simp

/-- C7: `pathOf` on an entry with no parent identifiers returns the
one-element sequence of its own name; on an entry with parents it consults
only the first parent identifier — on resolution failure it returns the
accumulated partial path (just its own name) with that error, and on
success it appends its own name to the recursively computed parent path,
propagating the inner error; moreover every result's path is nonempty and
ends with the entry's own name. -/
theorem path_of_c7 (env : ResolveEnv) (fuel : Nat) (f : DFile) :
    (f.parents = [] → pathOf env (fuel + 1) f = some ([f.name], none))
    ∧ (∀ k ks e, f.parents = k :: ks → env k = .error e →
        pathOf env (fuel + 1) f = some ([f.name], some e))
    ∧ (∀ k ks p prev er, f.parents = k :: ks → env k = .ok p →
        pathOf env fuel p = some (prev, er) →
        pathOf env (fuel + 1) f = some (prev ++ [f.name], er))
    ∧ (∀ fl res, pathOf env fl f = some res →
        res.1 ≠ [] ∧ res.1.getLast? = some f.name) := by
  refine ⟨?_, ?_, ?_, fun fl => pathOf_last env fl f⟩
  · intro hp; simp [pathOf, hp]
  · intro k ks e hp he; simp [pathOf, hp, he]
  · intro k ks p prev er hp he hr; simp [pathOf, hp, he, hr]

/-- Witness for C7 on a concrete two-level hierarchy with a failing
grandparent lookup: the entry "c" under parent "b" whose own parent "a"
fails to resolve. -/
theorem path_of_c7_witness :
    (pathOf (fun k => if k = "b" then .ok ⟨"b", "B", ["a"]⟩ else .error "boom")
        2 ⟨"c", "C", ["b"]⟩ = some (["B", "C"], some "boom"))
    ∧ (pathOf (fun k => if k = "b" then .ok ⟨"b", "B", ["a"]⟩ else .error "boom")
        1 ⟨"r", "R", []⟩ = some (["R"], none)) := by
  constructor
  · have h2 := (path_of_c7
      (fun k => if k = "b" then .ok ⟨"b", "B", ["a"]⟩ else .error "boom")
      1 ⟨"c", "C", ["b"]⟩).2.2.1 "b" [] ⟨"b", "B", ["a"]⟩ ["B"] (some "boom")
      rfl rfl rfl
    simpa using h2
  · exact (path_of_c7
      (fun k => if k = "b" then .ok ⟨"b", "B", ["a"]⟩ else .error "boom")
      0 ⟨"r", "R", []⟩).1 rfl

/-- C2: enriching a record with parent identifier list P yields a Photo
whose Parents list has length |P|; position i is the value computed for
identifier P i alone — the "/"-joined, "/"-prefixed path when both the
resolution and the path computation succeed, and the empty string when
either fails — and the returned error is the first per-position error in
order; a failing position does not stop the later positions (each is
still the value computed for its own identifier). -/
theorem file_as_photo_c2 (env : ResolveEnv) (parse : String → Option Nat)
    (fuel : Nat) (f : GFile) (p : Photo) (er : Option String)
    (h : fileAsPhoto env parse fuel (some f) = some (p, er)) :
    p.parents.length = f.parents.length
    ∧ p.parents = f.parents.map (posPath env fuel)
    ∧ er = firstSome (f.parents.map (posErr env fuel))
    ∧ (∀ (i : Nat) (k : String), f.parents[i]? = some k →
        (∀ pf parts, env k = .ok pf → pathOf env fuel pf = some (parts, none) →
          p.parents[i]? = some ("/" ++ String.intercalate "/" parts))
        ∧ (∀ e, env k = .error e → p.parents[i]? = some "")
        ∧ (∀ pf parts e, env k = .ok pf →
            pathOf env fuel pf = some (parts, some e) → p.parents[i]? = some "")) := by
  rcases hpl : parentsLoop env fuel f.parents with _ | ⟨ps, fe⟩ <;>
    simp [fileAsPhoto, hpl] at h
  rcases parentsLoop_eq_map env fuel f.parents (ps, fe) hpl with ⟨hmap, herr⟩
  simp only at hmap herr
  have hp : p.parents = ps := by
    rw [← h.1]
    simp [photoFields]
  have hper : p.parents = f.parents.map (posPath env fuel) := hp.trans hmap
  have her2 : er = firstSome (f.parents.map (posErr env fuel)) := by
    rw [← h.2, herr]
  refine ⟨by rw [hper]; simp, hper, her2, ?_⟩
  intro i k hk
  have hi : p.parents[i]? = some (posPath env fuel k) := by
    rw [hper, List.getElem?_map, hk]
    rfl
  refine ⟨?_, ?_, ?_⟩
  · intro pf parts hok hpath
    rw [hi]
    simp [posPath, resolveOne, hok, hpath]
  · intro e herrk
    rw [hi]
    simp [posPath, resolveOne, herrk]
  · intro pf parts e hok hpath
    rw [hi]
    simp [posPath, resolveOne, hok, hpath]

/-- Witness for C2: the theorem applied to a record with three parents
(one resolving cleanly, one failing to resolve, one whose path computation
hits a failing grandparent) shows three slots, the first error in order,
and the later positions still processed. -/
theorem file_as_photo_c2_witness :
    ∃ p er, fileAsPhoto
        (fun k =>
          if k = "d1" then .ok ⟨"d1", "Dir1", []⟩
          else if k = "d3" then .ok ⟨"d3", "Dir3", ["gone"]⟩
          else .error "resolve failed")
        (fun _ => none) 2 (some { name := "pic", parents := ["d1", "bad", "d3"] })
        = some (p, er)
      ∧ p.parents.length = 3
      ∧ p.parents = ["/Dir1", "", ""]
      ∧ er = some "resolve failed" := by
  refine ⟨⟨"", "pic", "", "", false, ["/Dir1", "", ""], [], "", 0, 0, "", 0⟩,
    some "resolve failed", rfl, ?_, rfl, rfl⟩
  have hlen := (file_as_photo_c2
    (fun k =>
      if k = "d1" then .ok ⟨"d1", "Dir1", []⟩
      else if k = "d3" then .ok ⟨"d3", "Dir3", ["gone"]⟩
      else .error "resolve failed")
    (fun _ => none) 2 { name := "pic", parents := ["d1", "bad", "d3"] }
    ⟨"", "pic", "", "", false, ["/Dir1", "", ""], [], "", 0, 0, "", 0⟩
    (some "resolve failed") rfl).1
  exact hlen

/-- C8: enriching a nil raw record returns the zero Photo and no error;
a record whose creation (resp. modification) timestamp is empty or fails
to parse yields a Photo whose creation (resp. modification) timestamp is
the zero time value, and the returned error is exactly the parents-loop
error — the parse failure raises no error. -/
theorem file_as_photo_c8 (env : ResolveEnv) (parse : String → Option Nat)
    (fuel : Nat) :
    fileAsPhoto env parse fuel none = some ({}, none)
    ∧ (∀ (f : GFile) ps er, parentsLoop env fuel f.parents = some (ps, er) →
        (f.createdTime = "" ∨ parse f.createdTime = none) →
        ∃ p, fileAsPhoto env parse fuel (some f) = some (p, er) ∧ p.createdTime = 0)
    ∧ (∀ (f : GFile) ps er, parentsLoop env fuel f.parents = some (ps, er) →
        (f.modifiedTime = "" ∨ parse f.modifiedTime = none) →
        ∃ p, fileAsPhoto env parse fuel (some f) = some (p, er) ∧ p.modifiedTime = 0) := by
  refine ⟨rfl, ?_, ?_⟩
  · intro f ps er hpl hbad
    refine ⟨photoFields parse f ps, by simp [fileAsPhoto, hpl], ?_⟩
    rcases hbad with hb | hb
    · simp [photoFields, hb]
    · simp [photoFields, hb]
  · intro f ps er hpl hbad
    refine ⟨photoFields parse f ps, by simp [fileAsPhoto, hpl], ?_⟩
    rcases hbad with hb | hb
    · simp [photoFields, hb]
    · simp [photoFields, hb]

/-- Witness for C8: a nil record, a record with an empty creation
timestamp, and a record whose timestamps fail to parse. -/
theorem file_as_photo_c8_witness :
    fileAsPhoto (fun _ => .error "x") (fun _ => none) 1 none = some ({}, none)
    ∧ (∃ p, fileAsPhoto (fun _ => .error "x") (fun _ => none) 1
        (some { name := "a", createdTime := "" }) = some (p, none)
        ∧ p.createdTime = 0)
    ∧ (∃ p, fileAsPhoto (fun _ => .error "x") (fun _ => none) 1
        (some { name := "a", modifiedTime := "not a date" }) = some (p, none)
        ∧ p.modifiedTime = 0) := by
  refine ⟨(file_as_photo_c8 (fun _ => .error "x") (fun _ => none) 1).1, ?_, ?_⟩
  · exact (file_as_photo_c8 (fun _ => .error "x") (fun _ => none) 1).2.1
      { name := "a", createdTime := "" } [] none rfl (Or.inl rfl)
  · exact (file_as_photo_c8 (fun _ => .error "x") (fun _ => none) 1).2.2
      { name := "a", modifiedTime := "not a date" } [] none rfl (Or.inr rfl)

/-- One delivery unit on the output channel (`MaybePhotos`). -/
structure Batch where
  photos : List Photo
  err : Option String
deriving Repr, DecidableEq

/-- One fetched page.  For the full listing the entries are the elements
of `FileList.Files`; for the change feed each entry is the `File` field of
one change, `none` when the change carries no associated record.  `next`
is the `NextPageToken`. -/
structure Page where
  entries : List (Option GFile)
  next : String
deriving Repr, DecidableEq

/-- The per-page goroutine body of `getPhotos` (src/unnamed/part_000 lines
95-106): convert the page's entries in order, appending each Photo before
checking its error; on the first enrichment error deliver the truncated
batch with that error and stop; otherwise deliver the whole page (even
when empty). -/
def photosBatch (env : ResolveEnv) (parse : String → Option Nat) (fuel : Nat) :
    List (Option GFile) → Option Batch
  | [] => some ⟨[], none⟩
  | f :: fs =>
    match fileAsPhoto env parse fuel f with
    | none => none
    | some (p, some e) => some ⟨[p], some e⟩
    | some (p, none) =>
      (photosBatch env parse fuel fs).map fun b => ⟨p :: b.photos, b.err⟩

/-- The conversion loop of the per-page goroutine of `getChanges` (lines
122-133): entries with no associated record are skipped; otherwise as in
`photosBatch`. -/
def changesLoop (env : ResolveEnv) (parse : String → Option Nat) (fuel : Nat) :
    List (Option GFile) → Option Batch
  | [] => some ⟨[], none⟩
  | none :: cs => changesLoop env parse fuel cs
  | some f :: cs =>
    match fileAsPhoto env parse fuel (some f) with
    | none => none
    | some (p, some e) => some ⟨[p], some e⟩
    | some (p, none) =>
      (changesLoop env parse fuel cs).map fun b => ⟨p :: b.photos, b.err⟩

/-- The full per-page goroutine body of `getChanges` (lines 122-137): the
error batch is always sent, a clean batch only when it is nonempty
(`if len(photos) > 0`); the inner `none` means no batch was sent for the
page. -/
def changesBatch (env : ResolveEnv) (parse : String → Option Nat) (fuel : Nat)
    (cs : List (Option GFile)) : Option (Option Batch) :=
  (changesLoop env parse fuel cs).map fun b =>
    if b.err.isSome || !b.photos.isEmpty then some b else none

/-- The driver loop of `getPhotos` (src/unnamed/part_000 lines 92-117),
holding page `r`; `rest` is the trace of outcomes of the remaining
`L(r.NextPageToken)` fetches.  The result is the list of batches the
session delivers (in page/spawn order; the unordered channel delivery is a
permutation of it), `some` exactly when the loop exits and the channel is
closed; the model corresponds to schedules in which each page's goroutine
reads the shared page variable before the driver overwrites it — see
`raceRun` below for the unsynchronized general case. -/
def getPhotosRun (env : ResolveEnv) (parse : String → Option Nat) (fuel : Nat) :
    Page → List (Except String Page) → Option (List Batch)
  | r, [] =>
    match photosBatch env parse fuel r.entries with
    | none => none
    | some b => if r.next = "" then some [b] else none
  | r, hd :: rest2 =>
    match photosBatch env parse fuel r.entries with
    | none => none
    | some b =>
      if r.next = "" then some [b]
      else
        match hd with
        | .error e => some [b, ⟨[], some e⟩]
        | .ok r2 => (getPhotosRun env parse fuel r2 rest2).map fun l => b :: l

/-- The driver loop of `getChanges` (src/unnamed/part_000 lines 119-147),
analogous to `getPhotosRun`; a page whose goroutine sends nothing
contributes no batch. -/
def getChangesRun (env : ResolveEnv) (parse : String → Option Nat) (fuel : Nat) :
    Page → List (Except String Page) → Option (List Batch)
  | r, [] =>
    match changesBatch env parse fuel r.entries with
    | none => none
    | some ob =>
      if r.next = "" then some ob.toList else none
  | r, hd :: rest2 =>
    match changesBatch env parse fuel r.entries with
    | none => none
    | some ob =>
      if r.next = "" then some ob.toList
      else
        match hd with
        | .error e => some (ob.toList ++ [⟨[], some e⟩])
        | .ok r2 => (getChangesRun env parse fuel r2 rest2).map fun l => ob.toList ++ l

/-- The page-fetch skeleton shared by both driver loops: the pages the
loop fetches, and whether it stops on a failed fetch (`some e`) or on an
empty next-page token (`none`). -/
def fetchTrace : Page → List (Except String Page) → Option (List Page × Option String)
  | r, [] => if r.next = "" then some ([r], none) else none
  | r, hd :: rest2 =>
    if r.next = "" then some ([r], none)
    else
      match hd with
      | .error e => some ([r], some e)
      | .ok r2 => (fetchTrace r2 rest2).map fun pr => (r :: pr.1, pr.2)

/-- What the session entry point returns: the output channel (`none` for
the nil channel, otherwise the batches the channel will deliver), the
start token handed back to the caller, and the synchronous error. -/
structure SessionOut where
  chan : Option (Option (List Batch))
  token : String
  err : Option String

/-- Model of `Photos` (src/unnamed/part_000 lines 27-90) after the service
handle is built: `startTok` is the outcome of the gated
`GetStartPageToken` call, `firstFetch` the outcome of the first `L` call
of the selected mode, and `rest` the trace of the later fetches consumed
by the spawned driver.  A nonempty `sinceToken` selects the change feed.
In the change-feed arm the Go source returns the (nil) error of the first
fetch as its third result. -/
def PhotosSession (env : ResolveEnv) (parse : String → Option Nat) (fuel : Nat)
    (sinceToken : String) (startTok : Except String String)
    (firstFetch : Except String Page) (rest : List (Except String Page)) :
    SessionOut :=
  match startTok with
  | .error e => ⟨none, "", some e⟩
  | .ok nextToken =>
    if sinceToken ≠ "" then
      match firstFetch with
      | .error e => ⟨none, "", some e⟩
      | .ok r => ⟨some (getChangesRun env parse fuel r rest), nextToken, none⟩
    else
      match firstFetch with
      | .error e => ⟨none, nextToken, some e⟩
      | .ok r => ⟨some (getPhotosRun env parse fuel r rest), nextToken, none⟩

theorem allNone_changesLoop (env : ResolveEnv) (parse : String → Option Nat)
    (fuel : Nat) :
    ∀ cs : List (Option GFile), (∀ c ∈ cs, c = none) →
      changesLoop env parse fuel cs = some ⟨[], none⟩ := by
  intro cs h
  induction cs with
  | nil => rfl
  | cons c cs ih =>
    have hc : c = none := h c (by simp)
    subst hc
    rw [changesLoop]
    exact ih fun c hc => h c (by simp [hc])

theorem photosRun_shape (env : ResolveEnv) (parse : String → Option Nat)
    (fuel : Nat) :
    ∀ (rest : List (Except String Page)) (r : Page) (l : List Batch),
      getPhotosRun env parse fuel r rest = some l →
      ∃ pages stop, fetchTrace r rest = some (pages, stop)
        ∧ l.length = pages.length + (if Option.isSome stop then 1 else 0) := by
  intro rest
  induction rest with
  | nil =>
    intro r l h
    rcases hb : photosBatch env parse fuel r.entries with _ | b <;>
      simp [getPhotosRun, hb] at h
    by_cases hn : r.next = ""
    · simp [hn] at h
      exact ⟨[r], none, by simp [fetchTrace, hn], by rw [← h]; simp⟩
    · simp [hn] at h
  | cons hd rest2 ih =>
    intro r l h
    rcases hb : photosBatch env parse fuel r.entries with _ | b <;>
      simp [getPhotosRun, hb] at h
    by_cases hn : r.next = ""
    · simp [hn] at h
      exact ⟨[r], none, by simp [fetchTrace, hn], by rw [← h]; simp⟩
    · rcases hd with e | r2
      · simp [hn] at h
        exact ⟨[r], some e, by simp [fetchTrace, hn], by rw [← h]; simp⟩
      · simp [hn] at h
        rcases h with ⟨l2, hrun, hl⟩
        rcases ih r2 l2 hrun with ⟨pages, stop, htr, hlen⟩
        refine ⟨r :: pages, stop, by simp [fetchTrace, hn, htr], ?_⟩
        rw [← hl]
        simp [hlen]
        omega

/-- C5: a change-feed page all of whose entries lack an associated record
sends no batch (and such a single-page session delivers zero batches and
still terminates); in full-listing mode an empty page still yields a
batch, and every terminated full-listing run delivers exactly one batch
per fetched page, plus one more exactly when the loop stopped on a failed
fetch. -/
theorem pages_c5 (env : ResolveEnv) (parse : String → Option Nat) (fuel : Nat) :
    (∀ cs : List (Option GFile), (∀ c ∈ cs, c = none) →
        changesBatch env parse fuel cs = some none)
    ∧ (∀ (rest : List (Except String Page)) (cs : List (Option GFile)),
        (∀ c ∈ cs, c = none) →
        getChangesRun env parse fuel ⟨cs, ""⟩ rest = some [])
    ∧ photosBatch env parse fuel [] = some ⟨[], none⟩
    ∧ (∀ (rest : List (Except String Page)) (r : Page) (l : List Batch),
        getPhotosRun env parse fuel r rest = some l →
        ∃ pages stop, fetchTrace r rest = some (pages, stop)
          ∧ l.length = pages.length + (if Option.isSome stop then 1 else 0)) := by
  refine ⟨?_, ?_, rfl, photosRun_shape env parse fuel⟩
  · intro cs h
    simp [changesBatch, allNone_changesLoop env parse fuel cs h]
  · intro rest cs h
    rcases rest with _ | ⟨hd, rest2⟩ <;>
      simp [getChangesRun, changesBatch, allNone_changesLoop env parse fuel cs h]

/-- Witness for C5: a change page with a single record-less entry sends
nothing and the session terminates; a two-page full listing (second page
empty) delivers exactly two batches. -/
theorem pages_c5_witness :
    changesBatch (fun _ => .error "x") (fun _ => none) 1 [none] = some none
    ∧ getChangesRun (fun _ => .error "x") (fun _ => none) 1 ⟨[none], ""⟩ []
        = some []
    ∧ photosBatch (fun _ => .error "x") (fun _ => none) 1 [] = some ⟨[], none⟩
    ∧ (∃ pages stop,
        fetchTrace ⟨[some { name := "A" }], "t"⟩ [.ok ⟨[], ""⟩] = some (pages, stop)
        ∧ (2 : Nat) = pages.length + (if Option.isSome stop then 1 else 0)) := by
  have hc := (pages_c5 (fun _ => .error "x") (fun _ => none) 1).1 [none]
    (by simp)
  have hr := (pages_c5 (fun _ => .error "x") (fun _ => none) 1).2.1 [] [none]
    (by simp)
  have hsh := (pages_c5 (fun _ => .error "x") (fun _ => none) 1).2.2.2
    [.ok ⟨[], ""⟩] ⟨[some { name := "A" }], "t"⟩
    [⟨[photoFields (fun _ => none) { name := "A" } []], none⟩, ⟨[], none⟩] rfl
  exact ⟨hc, hr, rfl, hsh⟩

/-- C6: the driver loop exits exactly when the current page carries no
next-page token (delivering just the spawned batches and closing) or when
the fetch of the next page fails (delivering a final error-only batch
`⟨[], some e⟩` before closing); with a next-page token and a successful
fetch the loop continues instead.  Stated for both the full-listing and
the change-feed loop; a `some` run result is the closed channel's
contents. -/
theorem runs_c6 (env : ResolveEnv) (parse : String → Option Nat) (fuel : Nat) :
    (∀ (r : Page) rest b, photosBatch env parse fuel r.entries = some b →
        r.next = "" → getPhotosRun env parse fuel r rest = some [b])
    ∧ (∀ (r : Page) b e more, photosBatch env parse fuel r.entries = some b →
        r.next ≠ "" →
        getPhotosRun env parse fuel r (.error e :: more) = some [b, ⟨[], some e⟩])
    ∧ (∀ (r r2 : Page) rest2 b, photosBatch env parse fuel r.entries = some b →
        r.next ≠ "" →
        getPhotosRun env parse fuel r (.ok r2 :: rest2)
          = (getPhotosRun env parse fuel r2 rest2).map fun l => b :: l)
    ∧ (∀ (r : Page) rest ob, changesBatch env parse fuel r.entries = some ob →
        r.next = "" → getChangesRun env parse fuel r rest = some ob.toList)
    ∧ (∀ (r : Page) ob e more, changesBatch env parse fuel r.entries = some ob →
        r.next ≠ "" →
        getChangesRun env parse fuel r (.error e :: more)
          = some (ob.toList ++ [⟨[], some e⟩]))
    ∧ (∀ (r r2 : Page) rest2 ob, changesBatch env parse fuel r.entries = some ob →
        r.next ≠ "" →
        getChangesRun env parse fuel r (.ok r2 :: rest2)
          = (getChangesRun env parse fuel r2 rest2).map fun l => ob.toList ++ l) := by
  refine ⟨?_, ?_, ?_, ?_, ?_, ?_⟩
  · intro r rest b hb hn
    rcases rest with _ | ⟨hd, rest2⟩ <;> simp [getPhotosRun, hb, hn]
  · intro r b e more hb hn
    simp [getPhotosRun, hb, hn]
  · intro r r2 rest2 b hb hn
    simp [getPhotosRun, hb, hn]
  · intro r rest ob hb hn
    rcases rest with _ | ⟨hd, rest2⟩ <;> simp [getChangesRun, hb, hn]
  · intro r ob e more hb hn
    simp [getChangesRun, hb, hn]
  · intro r r2 rest2 ob hb hn
    simp [getChangesRun, hb, hn]

/-- Witness for C6 on concrete sessions: a one-page session closes after
its batch; a session whose second fetch fails delivers the page batch and
then the error-only batch; a successful fetch continues the loop. -/
theorem runs_c6_witness :
    getPhotosRun (fun _ => .error "x") (fun _ => none) 1 ⟨[], ""⟩ []
        = some [⟨[], none⟩]
    ∧ getPhotosRun (fun _ => .error "x") (fun _ => none) 1 ⟨[], "t"⟩
        [.error "fetch failed"]
        = some [⟨[], none⟩, ⟨[], some "fetch failed"⟩]
    ∧ getChangesRun (fun _ => .error "x") (fun _ => none) 1 ⟨[none], "t"⟩
        [.error "fetch failed"]
        = some [⟨[], some "fetch failed"⟩] := by
  refine ⟨?_, ?_, ?_⟩
  · exact (runs_c6 (fun _ => .error "x") (fun _ => none) 1).1
      ⟨[], ""⟩ [] ⟨[], none⟩ rfl rfl
  · exact (runs_c6 (fun _ => .error "x") (fun _ => none) 1).2.1
      ⟨[], "t"⟩ ⟨[], none⟩ "fetch failed" [] rfl (by decide)
  · exact (runs_c6 (fun _ => .error "x") (fun _ => none) 1).2.2.2.2.1
      ⟨[none], "t"⟩ none "fetch failed" [] rfl (by decide)

theorem photosBatch_err_nonempty (env : ResolveEnv) (parse : String → Option Nat)
    (fuel : Nat) :
    ∀ (fs : List (Option GFile)) (b : Batch),
      photosBatch env parse fuel fs = some b → b.err.isSome → b.photos ≠ [] := by
  intro fs
  induction fs with
  | nil =>
    intro b h he
    simp [photosBatch] at h
    rw [← h] at he
    simp at he
  | cons f fs ih =>
    intro b h he
    rcases hf : fileAsPhoto env parse fuel f with _ | ⟨p, e⟩
    · simp [photosBatch, hf] at h
    · rcases e with _ | e2
      · rcases hb2 : photosBatch env parse fuel fs with _ | b2 <;>
          simp [photosBatch, hf, hb2] at h
        rw [← h]
        simp
      · simp [photosBatch, hf] at h
        rw [← h]
        simp

theorem changesLoop_err_nonempty (env : ResolveEnv) (parse : String → Option Nat)
    (fuel : Nat) :
    ∀ (cs : List (Option GFile)) (b : Batch),
      changesLoop env parse fuel cs = some b → b.err.isSome → b.photos ≠ [] := by
  intro cs
  induction cs with
  | nil =>
    intro b h he
    simp [changesLoop] at h
    rw [← h] at he
    simp at he
  | cons c cs ih =>
    intro b h he
    rcases c with _ | f
    · rw [changesLoop] at h
      exact ih b h he
    · rcases hf : fileAsPhoto env parse fuel (some f) with _ | ⟨p, e⟩
      · simp [changesLoop, hf] at h
      · rcases e with _ | e2
        · rcases hb2 : changesLoop env parse fuel cs with _ | b2 <;>
            simp [changesLoop, hf, hb2] at h
          rw [← h]
          simp
        · simp [changesLoop, hf] at h
          rw [← h]
          simp

theorem append_getLast?_ne_nil {α : Type} (l1 : List α) (l2 : List α)
    (h : l2 ≠ []) : (l1 ++ l2).getLast? = l2.getLast? :=
  List.getLast?_append_of_ne_nil l1 h

theorem photosRun_err_empty_origin (env : ResolveEnv) (parse : String → Option Nat)
    (fuel : Nat) :
    ∀ (rest : List (Except String Page)) (r : Page) (l : List Batch) (b : Batch),
      getPhotosRun env parse fuel r rest = some l → b ∈ l →
      b.err.isSome → b.photos = [] →
      l.getLast? = some b
      ∧ ∃ pages e, fetchTrace r rest = some (pages, some e)
          ∧ b = ⟨[], some e⟩ := by
  intro rest
  induction rest with
  | nil =>
    intro r l b h hm he hp
    rcases hb : photosBatch env parse fuel r.entries with _ | b0 <;>
      simp [getPhotosRun, hb] at h
    by_cases hn : r.next = ""
    · simp [hn] at h
      rw [← h] at hm
      simp at hm
      subst hm
      exact absurd hp (photosBatch_err_nonempty env parse fuel r.entries b hb he)
    · simp [hn] at h
  | cons hd rest2 ih =>
    intro r l b h hm he hp
    rcases hb : photosBatch env parse fuel r.entries with _ | b0 <;>
      simp [getPhotosRun, hb] at h
    by_cases hn : r.next = ""
    · simp [hn] at h
      rw [← h] at hm
      simp at hm
      subst hm
      exact absurd hp (photosBatch_err_nonempty env parse fuel r.entries b hb he)
    · rcases hd with e | r2
      · simp [hn] at h
        rw [← h] at hm
        simp at hm
        rcases hm with hm | hm
        · subst hm
          exact absurd hp (photosBatch_err_nonempty env parse fuel r.entries b hb he)
        · subst hm
          refine ⟨by rw [← h]; rfl, ⟨[r], e, by simp [fetchTrace, hn], rfl⟩⟩
      · simp [hn] at h
        rcases h with ⟨l2, hrun, hl⟩
        rw [← hl] at hm
        simp at hm
        rcases hm with hm | hm
        · subst hm
          exact absurd hp (photosBatch_err_nonempty env parse fuel r.entries b hb he)
        · rcases ih r2 l2 b hrun hm he hp with ⟨hlast, pages, e, htr, hbe⟩
          have hne : l2 ≠ [] := by
            intro hnil
            rw [hnil] at hm
            simp at hm
          refine ⟨?_, ⟨r :: pages, e, by simp [fetchTrace, hn, htr], hbe⟩⟩
          rw [← hl, ← List.singleton_append,
            append_getLast?_ne_nil [b0] l2 hne, hlast]

theorem changesRun_err_empty_origin (env : ResolveEnv) (parse : String → Option Nat)
    (fuel : Nat) :
    ∀ (rest : List (Except String Page)) (r : Page) (l : List Batch) (b : Batch),
      getChangesRun env parse fuel r rest = some l → b ∈ l →
      b.err.isSome → b.photos = [] →
      l.getLast? = some b
      ∧ ∃ pages e, fetchTrace r rest = some (pages, some e)
          ∧ b = ⟨[], some e⟩ := by
  have hsent : ∀ (cs : List (Option GFile)) ob b,
      changesBatch env parse fuel cs = some ob → ob = some b →
      b.err.isSome → b.photos ≠ [] := by
    intro cs ob b hcb hob he
    subst hob
    rcases hcl : changesLoop env parse fuel cs with _ | b1 <;>
      simp [changesBatch, hcl] at hcb
    rcases hcb with ⟨_, hb1⟩
    subst hb1
    exact changesLoop_err_nonempty env parse fuel cs b1 hcl he
  intro rest
  induction rest with
  | nil =>
    intro r l b h hm he hp
    rcases hb : changesBatch env parse fuel r.entries with _ | ob <;>
      simp [getChangesRun, hb] at h
    by_cases hn : r.next = ""
    · simp [hn] at h
      rw [← h] at hm
      simp at hm
      exact absurd hp (hsent r.entries ob b hb hm he)
    · simp [hn] at h
  | cons hd rest2 ih =>
    intro r l b h hm he hp
    rcases hb : changesBatch env parse fuel r.entries with _ | ob <;>
      simp [getChangesRun, hb] at h
    by_cases hn : r.next = ""
    · simp [hn] at h
      rw [← h] at hm
      simp at hm
      exact absurd hp (hsent r.entries ob b hb hm he)
    · rcases hd with e | r2
      · simp [hn] at h
        rw [← h] at hm
        simp at hm
        rcases hm with hm | hm
        · exact absurd hp (hsent r.entries ob b hb hm he)
        · subst hm
          refine ⟨?_, ⟨[r], e, by simp [fetchTrace, hn], rfl⟩⟩
          rw [← h, append_getLast?_ne_nil _ _ (by simp)]
          rfl
      · simp [hn] at h
        rcases h with ⟨l2, hrun, hl⟩
        rw [← hl] at hm
        simp at hm
        rcases hm with hm | hm
        · exact absurd hp (hsent r.entries ob b hb hm he)
        · rcases ih r2 l2 b hrun hm he hp with ⟨hlast, pages, e, htr, hbe⟩
          have hne : l2 ≠ [] := by
            intro hnil
            rw [hnil] at hm
            simp at hm
          refine ⟨?_, ⟨r :: pages, e, by simp [fetchTrace, hn, htr], hbe⟩⟩
          rw [← hl, append_getLast?_ne_nil _ _ hne, hlast]

/-- C10: an enrichment batch carrying an error always contains at least
one Photo (the partially filled Photo is appended before the error check);
in change-feed mode an erroring page still sends its batch even though
empty clean pages are suppressed; and in either mode a delivered batch
with an error and zero Photos is the final batch and originates from a
failed page fetch. -/
theorem batches_c10 (env : ResolveEnv) (parse : String → Option Nat) (fuel : Nat) :
    (∀ (fs : List (Option GFile)) b, photosBatch env parse fuel fs = some b →
        b.err.isSome → b.photos ≠ [])
    ∧ (∀ (cs : List (Option GFile)) b, changesLoop env parse fuel cs = some b →
        b.err.isSome → b.photos ≠ [])
    ∧ (∀ (cs : List (Option GFile)) b, changesLoop env parse fuel cs = some b →
        b.err.isSome → changesBatch env parse fuel cs = some (some b))
    ∧ (∀ rest (r : Page) l b, getPhotosRun env parse fuel r rest = some l →
        b ∈ l → b.err.isSome → b.photos = [] →
        l.getLast? = some b
        ∧ ∃ pages e, fetchTrace r rest = some (pages, some e) ∧ b = ⟨[], some e⟩)
    ∧ (∀ rest (r : Page) l b, getChangesRun env parse fuel r rest = some l →
        b ∈ l → b.err.isSome → b.photos = [] →
        l.getLast? = some b
        ∧ ∃ pages e, fetchTrace r rest = some (pages, some e) ∧ b = ⟨[], some e⟩) := by
  refine ⟨photosBatch_err_nonempty env parse fuel,
    changesLoop_err_nonempty env parse fuel, ?_,
    photosRun_err_empty_origin env parse fuel,
    changesRun_err_empty_origin env parse fuel⟩
  intro cs b h he
  simp [changesBatch, h, he]

/-- Witness for C10: a change page whose single entry errors during
enrichment still sends a one-Photo batch; a fetch failure produces the
error-only final batch recognized as such. -/
theorem batches_c10_witness :
    changesBatch (fun _ => .error "boom") (fun _ => none) 1
        [some { name := "A", parents := ["d"] }]
        = some (some ⟨[photoFields (fun _ => none)
            { name := "A", parents := ["d"] } [""]], some "boom"⟩)
    ∧ ((([⟨[], none⟩, ⟨[], some "fetch failed"⟩] : List Batch).getLast?
          = some ⟨[], some "fetch failed"⟩)
        ∧ ∃ pages e, fetchTrace ⟨[], "t"⟩ [.error "fetch failed"]
            = some (pages, some e)
          ∧ (⟨[], some "fetch failed"⟩ : Batch) = ⟨[], some e⟩) := by
  constructor
  · exact (batches_c10 (fun _ => .error "boom") (fun _ => none) 1).2.2.1
      [some { name := "A", parents := ["d"] }]
      ⟨[photoFields (fun _ => none) { name := "A", parents := ["d"] } [""]],
        some "boom"⟩ rfl rfl
  · exact (batches_c10 (fun _ => .error "boom") (fun _ => none) 1).2.2.2.1
      [.error "fetch failed"] ⟨[], "t"⟩
      [⟨[], none⟩, ⟨[], some "fetch failed"⟩] ⟨[], some "fetch failed"⟩
      rfl (by simp) rfl rfl

/-- C9: when the first page fetch fails the session entry point returns
that error synchronously with a nil channel — still handing back the
already-obtained start token in full-listing mode, but the empty string in
change-feed mode; when the first fetch succeeds the synchronous error is
nil and a channel is returned, and a failing second-or-later fetch shows
up there as the final error-only batch. -/
theorem photos_session_c9 (env : ResolveEnv) (parse : String → Option Nat)
    (fuel : Nat) (nt : String) :
    (∀ e rest, PhotosSession env parse fuel "" (.ok nt) (.error e) rest
        = ⟨none, nt, some e⟩)
    ∧ (∀ since e rest, since ≠ "" →
        PhotosSession env parse fuel since (.ok nt) (.error e) rest
          = ⟨none, "", some e⟩)
    ∧ (∀ since r rest,
        (PhotosSession env parse fuel since (.ok nt) (.ok r) rest).err = none
        ∧ (PhotosSession env parse fuel since (.ok nt) (.ok r) rest).token = nt
        ∧ (PhotosSession env parse fuel since (.ok nt) (.ok r) rest).chan ≠ none)
    ∧ (∀ (r : Page) b e more, r.next ≠ "" →
        photosBatch env parse fuel r.entries = some b →
        getPhotosRun env parse fuel r (.error e :: more)
          = some [b, ⟨[], some e⟩]) := by
  refine ⟨?_, ?_, ?_, ?_⟩
  · intro e rest
    simp [PhotosSession]
  · intro since e rest hs
    simp [PhotosSession, hs]
  · intro since r rest
    by_cases hs : since = ""
    · subst hs
      simp [PhotosSession]
    · simp [PhotosSession, hs]
  · intro r b e more hn hb
    simp [getPhotosRun, hb, hn]

/-- Witness for C9: concrete first-fetch failures in both modes, a
successful first fetch, and a failing second fetch surfacing in the
channel. -/
theorem photos_session_c9_witness :
    PhotosSession (fun _ => .error "x") (fun _ => none) 1 "" (.ok "start7")
        (.error "first fetch failed") [] = ⟨none, "start7", some "first fetch failed"⟩
    ∧ PhotosSession (fun _ => .error "x") (fun _ => none) 1 "since3" (.ok "start7")
        (.error "first fetch failed") [] = ⟨none, "", some "first fetch failed"⟩
    ∧ (PhotosSession (fun _ => .error "x") (fun _ => none) 1 "" (.ok "start7")
        (.ok ⟨[], ""⟩) []).err = none
    ∧ getPhotosRun (fun _ => .error "x") (fun _ => none) 1 ⟨[], "t"⟩
        [.error "late fetch failed"] = some [⟨[], none⟩, ⟨[], some "late fetch failed"⟩] := by
  refine ⟨?_, ?_, ?_, ?_⟩
  · exact (photos_session_c9 (fun _ => .error "x") (fun _ => none) 1 "start7").1
      "first fetch failed" []
  · exact (photos_session_c9 (fun _ => .error "x") (fun _ => none) 1 "start7").2.1
      "since3" "first fetch failed" [] (by decide)
  · exact ((photos_session_c9 (fun _ => .error "x") (fun _ => none) 1 "start7").2.2.1
      "" ⟨[], ""⟩ []).1
  · exact (photos_session_c9 (fun _ => .error "x") (fun _ => none) 1 "start7").2.2.2
      ⟨[], "t"⟩ ⟨[], none⟩ "late fetch failed" [] (by decide) rfl

/-- Scheduler choice for the interleaved model of `getPhotos`: advance the
driver loop by one atomic step, or run one spawned page goroutine to
completion. -/
inductive Sched where
  | driver
  | task
deriving Repr, DecidableEq

/-- State of the interleaved model of `getPhotos` (src/unnamed/part_000
lines 92-117).  `r` is the driver's page variable, which the spawned
goroutines capture by reference and the driver reassigns on each fetch
with no synchronization; `pending` counts goroutines spawned but not yet
started; `sent` is what the consumer has received, in channel order;
`spawnNext` is true when the driver's next step is the `go func(){...}()`
statement; `closed` records that the deferred `close(ch)` has run. -/
structure RaceState where
  r : Page
  rest : List (Except String Page)
  pending : Nat := 0
  sent : List Batch := []
  spawnNext : Bool := true
  closed : Bool := false

/-- One driver step: either the goroutine spawn, or the next-token check
followed (when a token is present) by the blocking fetch that reassigns
`r`.  The spawn and the check/fetch are separate steps because a spawned
goroutine can be scheduled between them.  `none` marks an invalid
schedule (driver already done) or an exhausted fetch trace. -/
def driverStep (st : RaceState) : Option RaceState :=
  if st.closed then none
  else if st.spawnNext then
    some { st with pending := st.pending + 1, spawnNext := false }
  else if st.r.next = "" then
    some { st with closed := true }
  else
    match st.rest with
    | [] => none
    | .error e :: _ =>
      some { st with sent := st.sent ++ [⟨[], some e⟩], closed := true }
    | .ok r2 :: rest2 =>
      some { st with r := r2, rest := rest2, spawnNext := true }

/-- Running one spawned goroutine of `getPhotos`: it reads the shared
variable `r` when it starts — this read is the data race — converts that
page and sends its single batch.  A send on the closed channel is a Go
panic, modelled as an invalid schedule (`none`). -/
def taskStep (env : ResolveEnv) (parse : String → Option Nat) (fuel : Nat)
    (st : RaceState) : Option RaceState :=
  if st.pending = 0 then none
  else if st.closed then none
  else
    match photosBatch env parse fuel st.r.entries with
    | none => none
    | some b => some { st with pending := st.pending - 1, sent := st.sent ++ [b] }

/-- Execution of `getPhotos` under an explicit schedule of driver and
goroutine steps. -/
def raceRun (env : ResolveEnv) (parse : String → Option Nat) (fuel : Nat) :
    List Sched → RaceState → Option RaceState
  | [], st => some st
  | .driver :: sch, st => (driverStep st).bind (raceRun env parse fuel sch)
  | .task :: sch, st => (taskStep env parse fuel st).bind (raceRun env parse fuel sch)

/-- C3 is violated by the code: in a two-page full listing (page 1 holds
item "A" with a next token, page 2 holds item "B" with none), the schedule
in which the driver's fetch of page 2 completes before page 1's goroutine
starts makes both goroutines read the reassigned shared variable `r`.
The session runs to a normal close, yet both delivered batches hold page
2's item and item "A" of page 1 is never delivered: a batch drawn from a
different page, and a duplicated page. -/
theorem get_photos_race_c3 :
    ∃ st : RaceState,
      raceRun (fun _ => .error "x") (fun _ => none) 1
          [.driver, .driver, .task, .driver, .task, .driver]
          { r := ⟨[some { name := "A" }], "t"⟩,
            rest := [.ok ⟨[some { name := "B" }], ""⟩] }
        = some st
      ∧ st.closed = true
      ∧ st.pending = 0
      ∧ st.sent
          = [⟨[photoFields (fun _ => none) { name := "B" } []], none⟩,
             ⟨[photoFields (fun _ => none) { name := "B" } []], none⟩]
      ∧ ∀ b ∈ st.sent,
          photoFields (fun _ => none) { name := "A" } [] ∉ b.photos := by
  refine ⟨{ r := ⟨[some { name := "B" }], ""⟩,
            rest := [],
            pending := 0,
            sent := [⟨[photoFields (fun _ => none) { name := "B" } []], none⟩,
                     ⟨[photoFields (fun _ => none) { name := "B" } []], none⟩],
            spawnNext := false,
            closed := true }, ?_, rfl, rfl, rfl, ?_⟩
  · rfl
  · decide

/-- Global mutable state of `fileOf`: the `dirs` map (as an association
list, newest entry first) plus a log of the remote `srv.Get` calls issued
so far, one entry per call, recording the requested identifier. -/
structure CacheState where
  dirs : List (String × DFile) := []
  callLog : List String := []
deriving Repr, DecidableEq

/-- Lookup in the `dirs` map (`dirs[p]`, nil meaning absent). -/
def lookupDirs : List (String × DFile) → String → Option DFile
  | [], _ => none
  | (k, f) :: rest, p => if k = p then some f else lookupDirs rest p

/-- Number of remote calls recorded for identifier `p`. -/
def countKey : List String → String → Nat
  | [], _ => 0
  | q :: rest, p => (if q = p then 1 else 0) + countKey rest p

/-- The function literal passed to `dirSingle.Do` in `fileOf`
(src/unnamed/part_000 lines 224-237): return the cached record when
present, otherwise issue the gated remote Get — `remote` maps the
identifier and the number of remote calls already made for it to that
call's outcome — and cache the record only on success. -/
def fileOfBody (remote : String → Nat → Except String DFile) (st : CacheState)
    (p : String) : CacheState × Except String DFile :=
  match lookupDirs st.dirs p with
  | some f => (st, .ok f)
  | none =>
    match remote p (countKey st.callLog p) with
    | .ok f =>
      ({ dirs := (p, f) :: st.dirs, callLog := st.callLog ++ [p] }, .ok f)
    | .error e =>
      ({ st with callLog := st.callLog ++ [p] }, .error e)

/-- A sequence of non-overlapping `fileOf` calls threading the global
state. -/
def fileOfSeq (remote : String → Nat → Except String DFile) :
    CacheState → List String → CacheState × List (Except String DFile)
  | st, [] => (st, [])
  | st, p :: ps =>
    let r1 := fileOfBody remote st p
    let r2 := fileOfSeq remote r1.1 ps
    (r2.1, r1.2 :: r2.2)

/-- The distinct keys of a list, first occurrence order. -/
def distinctKeys : List String → List String
  | [] => []
  | p :: ps => p :: distinctKeys (ps.filter fun q => !(q == p))
termination_by l => l.length
decreasing_by
  simp only [List.length_cons]
  exact Nat.lt_succ_of_le (List.length_filter_le _ _)

/-- The result recorded for key `p` by the per-key executions. -/
def resultFor : List String → List (Except String DFile) → String →
    Except String DFile
  | k :: ks, r :: rs, p => if k = p then r else resultFor ks rs p
  | _, _, _ => .error "no result"

/-- Modelled from the spec: the deduplication contract of
`singleflight.Group.Do` (the go4.org library used by `fileOf`, external to
this repository) — concurrent callers for the same key share one
execution of the supplied function and all receive its result.  A round
of overlapping `fileOf` callers hence runs `fileOfBody` once per distinct
requested key and hands every caller the result of its key's single
execution. -/
def fileOfConc (remote : String → Nat → Except String DFile) (st : CacheState)
    (callers : List String) : CacheState × List (Except String DFile) :=
  let keys := distinctKeys callers
  let run := fileOfSeq remote st keys
  (run.1, callers.map (resultFor keys run.2))

theorem countKey_append (p : String) :
    ∀ l1 l2 : List String, countKey (l1 ++ l2) p = countKey l1 p + countKey l2 p := by
  intro l1 l2
  induction l1 with
  | nil => simp [countKey]
  | cons q l1 ih => simp [countKey, ih]; omega

theorem fileOfBody_invariant (remote : String → Nat → Except String DFile)
    (p : String) (hok : ∀ q n, ∃ f, remote q n = .ok f) (st : CacheState)
    (q : String) (h1 : countKey st.callLog p ≤ 1)
    (h2 : lookupDirs st.dirs p = none → countKey st.callLog p = 0) :
    countKey (fileOfBody remote st q).1.callLog p ≤ 1
    ∧ (lookupDirs (fileOfBody remote st q).1.dirs p = none →
        countKey (fileOfBody remote st q).1.callLog p = 0) := by
  rcases hl : lookupDirs st.dirs q with _ | f
  · rcases hok q (countKey st.callLog q) with ⟨f, hf⟩
    simp [fileOfBody, hl, hf, countKey_append, lookupDirs]
    by_cases hq : q = p
    · subst hq
      have h0 := h2 hl
      constructor
      · simp [countKey, h0]
      · intro hnone
        simp at hnone
    · constructor
      · simpa [countKey, hq] using h1
      · intro hnone
        rw [if_neg hq] at hnone
        simpa [countKey, hq] using h2 hnone
  · simp [fileOfBody, hl]
    exact ⟨h1, h2⟩

theorem fileOfSeq_calls_le_one (remote : String → Nat → Except String DFile)
    (p : String) (hok : ∀ q n, ∃ f, remote q n = .ok f) :
    ∀ (ps : List String) (st : CacheState),
      countKey st.callLog p ≤ 1 →
      (lookupDirs st.dirs p = none → countKey st.callLog p = 0) →
      countKey (fileOfSeq remote st ps).1.callLog p ≤ 1 := by
  intro ps
  induction ps with
  | nil =>
    intro st h1 h2
    exact h1
  | cons q ps ih =>
    intro st h1 h2
    rcases fileOfBody_invariant remote p hok st q h1 h2 with ⟨h1b, h2b⟩
    exact ih (fileOfBody remote st q).1 h1b h2b

theorem filter_ne_replicate (p : String) :
    ∀ n : Nat, (List.replicate n p).filter (fun q => !(q == p)) = [] := by
  intro n
  induction n with
  | zero => rfl
  | succ n ih => simp [List.replicate_succ, List.filter_cons, ih]

/-- C4: a `fileOf` resolution that hits the cache returns the cached
record with no remote call and no state change; a successful resolution
is cached, and when the remote never fails any sequence of resolutions
issues at most one remote call for each identifier; a failed lookup adds
nothing to the cache, so an immediately repeated resolution of the same
identifier issues a fresh remote call; and a round of concurrent
resolutions of one uncached identifier issues exactly one remote call
whose result every caller observes. -/
theorem file_of_c4 (remote : String → Nat → Except String DFile) (p : String) :
    (∀ (st : CacheState) f, lookupDirs st.dirs p = some f →
        fileOfBody remote st p = (st, .ok f))
    ∧ (∀ (st : CacheState) f, (fileOfBody remote st p).2 = .ok f →
        lookupDirs (fileOfBody remote st p).1.dirs p = some f)
    ∧ (∀ ps : List String, (∀ q n, ∃ f, remote q n = .ok f) →
        countKey (fileOfSeq remote {} ps).1.callLog p ≤ 1)
    ∧ (∀ (st : CacheState) e, lookupDirs st.dirs p = none →
        remote p (countKey st.callLog p) = .error e →
        fileOfBody remote st p
          = ({ st with callLog := st.callLog ++ [p] }, .error e)
        ∧ countKey (fileOfBody remote (fileOfBody remote st p).1 p).1.callLog p
          = countKey st.callLog p + 2)
    ∧ (∀ (st : CacheState) (n : Nat) f, lookupDirs st.dirs p = none →
        remote p (countKey st.callLog p) = .ok f →
        fileOfConc remote st (List.replicate (n + 1) p)
          = ({ dirs := (p, f) :: st.dirs, callLog := st.callLog ++ [p] },
             List.replicate (n + 1) (.ok f))) := by
  refine ⟨?_, ?_, ?_, ?_, ?_⟩
  · intro st f h
    simp [fileOfBody, h]
  · intro st f h
    rcases hl : lookupDirs st.dirs p with _ | f0
    · rcases hr : remote p (countKey st.callLog p) with e | f1
      · simp [fileOfBody, hl, hr] at h
      · simp [fileOfBody, hl, hr] at h ⊢
        simp [lookupDirs, ← h]
    · simp [fileOfBody, hl] at h ⊢
      exact h
  · intro ps hok
    exact fileOfSeq_calls_le_one remote p hok ps {} (by simp [countKey])
      (fun _ => by simp [countKey])
  · intro st e hl hr
    have hbody : fileOfBody remote st p
        = ({ st with callLog := st.callLog ++ [p] }, .error e) := by
      simp [fileOfBody, hl, hr]
    refine ⟨hbody, ?_⟩
    rw [hbody]
    rcases hr2 : remote p (countKey st.callLog p + 1) with e2 | f2 <;>
      simp [fileOfBody, hl, hr2, countKey_append, countKey]
  · intro st n f hl hr
    have hkeys : distinctKeys (List.replicate (n + 1) p) = [p] := by
      simp [List.replicate_succ, distinctKeys, filter_ne_replicate]
    have hseq : fileOfSeq remote st [p]
        = ({ dirs := (p, f) :: st.dirs, callLog := st.callLog ++ [p] },
           [.ok f]) := by
      simp [fileOfSeq, fileOfBody, hl, hr]
    simp [fileOfConc, hkeys, hseq, resultFor, List.map_replicate]

/-- Witness for C4 with a concrete always-succeeding remote: a hit
returns the cached record unchanged, three sequential resolutions of one
identifier log one call, a failing remote is retried afresh, and three
concurrent callers share one call. -/
theorem file_of_c4_witness :
    fileOfBody (fun q _ => .ok ⟨q, q, []⟩)
        { dirs := [("a", ⟨"a", "A", []⟩)], callLog := ["a"] } "a"
      = ({ dirs := [("a", ⟨"a", "A", []⟩)], callLog := ["a"] }, .ok ⟨"a", "A", []⟩)
    ∧ countKey (fileOfSeq (fun q _ => .ok ⟨q, q, []⟩) {} ["a", "a", "a"]).1.callLog "a" ≤ 1
    ∧ fileOfBody (fun _ _ => .error "nope") {} "a"
        = ({ dirs := [], callLog := ["a"] }, .error "nope")
    ∧ fileOfConc (fun q _ => .ok ⟨q, q, []⟩) {} (List.replicate 3 "a")
        = ({ dirs := [("a", ⟨"a", "a", []⟩)], callLog := ["a"] },
           List.replicate 3 (.ok ⟨"a", "a", []⟩)) := by
  refine ⟨?_, ?_, ?_, ?_⟩
  · exact (file_of_c4 (fun q _ => .ok ⟨q, q, []⟩) "a").1
      { dirs := [("a", ⟨"a", "A", []⟩)], callLog := ["a"] } ⟨"a", "A", []⟩ rfl
  · exact (file_of_c4 (fun q _ => .ok ⟨q, q, []⟩) "a").2.2.1 ["a", "a", "a"]
      (fun q n => ⟨⟨q, q, []⟩, rfl⟩)
  · exact ((file_of_c4 (fun _ _ => .error "nope") "a").2.2.2.1 {} "nope" rfl rfl).1
  · exact (file_of_c4 (fun q _ => .ok ⟨q, q, []⟩) "a").2.2.2.2 {} 2 ⟨"a", "a", []⟩
      rfl rfl

end GPhotos
